import Mathlib

/-!
Shallow embedding of the PHOS `RawQcTask` statistics-accumulation core
(`Modules/PHOS/src/RawQcTask.cxx`).

Grids are modelled as total functions over module and cell indices; the
floating-point histogram contents are modelled over `ℚ` (all operations the
task performs on them — add, multiply, divide — are exact in `ℚ`), occupancy
counts over `ℕ`.  1D distribution accumulators whose binning is never read by
the task itself are modelled as the list of values filled into them.
-/

namespace RawQc

/-- A cell position inside one PHOS module: 64 rows x 56 columns
(the `TH2F(..., 64, 0., 64., 56, 0., 56.)` grids of the source). -/
abbrev CellIdx := Fin 64 × Fin 56

/-- One per-channel measurement record (`o2::phos::Cell`):
absolute address, energy, time, high/low gain flag. -/
structure Cell where
  absId : ℕ
  energy : ℚ
  time : ℚ
  highGain : Bool
deriving DecidableEq, Repr

/-- A trigger record delimiting a contiguous sub-range of the cell batch
(`o2::phos::TriggerRecord`): first index and number of objects. -/
structure TriggerRecord where
  firstEntry : ℕ
  numberOfObjects : ℕ
deriving DecidableEq, Repr

/-- The sub-range of the cell batch covered by one trigger record:
`for (int i = firstCellInEvent; i < lastCellInEvent; i++) cells[i]`. -/
def subspan (cells : List Cell) (tr : TriggerRecord) : List Cell :=
  (cells.drop tr.firstEntry).take tr.numberOfObjects

/-- Modelled from the spec: the Channel Grid Index
`o2::phos::Geometry::absToRelNumbering`, whose implementation lives outside
this repository.  Per the spec it decodes a flat channel address into
(module ∈ {0..3}, row ∈ [0,64), column ∈ [0,56)) and fails for addresses
outside the valid detector span.  The module stride 3584 = 64*56 is evidenced
in the source (`nbm[(absId - 1) / 3584]++`, NCHANNELS = 4*3584 = 14336); the
row/column layout within a module is a modelling choice that no claim below
depends on.  Returned indices are 0-based (the source immediately uses
`relid[0] - 1` and `relid[i] - 0.5` bin centres). -/
def absToRelNumbering (absId : ℕ) : Option (Fin 4 × CellIdx) :=
  if h : 1 ≤ absId ∧ absId ≤ 14336 then
    some (⟨(absId - 1) / 3584, by omega⟩,
          ⟨((absId - 1) % 3584) / 56, by omega⟩,
          ⟨((absId - 1) % 3584) % 56, by omega⟩)
  else
    none

/-- Point update of a per-module grid of cells. -/
def upd2 {α : Type} (f : Fin 4 → CellIdx → α) (m : Fin 4) (c : CellIdx) (v : α) :
    Fin 4 → CellIdx → α :=
  fun m1 c1 => if m1 = m ∧ c1 = c then v else f m1 c1

/-- The finalize transition on one (value-grid, occupancy-grid) pair:
`TH2::Divide` as used in `endOfCycle` — cell-wise `value / occupancy`,
with cells of zero occupancy set to zero (ROOT's divide-by-zero-bin rule). -/
def finalizeGrid (v : CellIdx → ℚ) (o : CellIdx → ℕ) : CellIdx → ℚ :=
  fun c => if o c = 0 then 0 else v c / (o c : ℚ)

/-- The un-finalize transition on one (value-grid, occupancy-grid) pair:
`TH2::Multiply` as used in `startOfCycle` / `FillPedestalHistograms` —
cell-wise `value * occupancy`. -/
def unfinalizeGrid (v : CellIdx → ℚ) (o : CellIdx → ℕ) : CellIdx → ℚ :=
  fun c => v c * (o c : ℚ)

/-! ### Physics mode (`FillPhysicsHistograms`) -/

/-- Physics-mode accumulator bank: per-module cell occupancy (`kCellOccupM1`),
running mean energy (`kCellEM1`), time-vs-energy fills (`kTimeEM1`, kept as
the list of `(energy, time)` fills) and energy-spectrum fills (`kCellSpM1`,
kept as the list of filled energies). -/
structure PhysState where
  cellOccup : Fin 4 → CellIdx → ℕ
  cellE : Fin 4 → CellIdx → ℚ
  timeE : Fin 4 → List (ℚ × ℚ)
  cellSp : Fin 4 → List ℚ
deriving DecidableEq

/-- The all-zero physics state (freshly created / reset histograms). -/
def physState0 : PhysState :=
  { cellOccup := fun _ _ => 0
    cellE := fun _ _ => 0
    timeE := fun _ => []
    cellSp := fun _ => [] }

/-- Processing of a single record in `FillPhysicsHistograms` (lines 412-437).
`th` stands for the threshold constant `kOcccupancyTh`, declared in the
task's header file which is not part of this source tree; every property
below holds for an arbitrary value of it.
The source ignores the Boolean result of `absToRelNumbering`; the `none`
branch here is a modelling choice (no-op) that no theorem below exercises. -/
def physStep (th : ℚ) (s : PhysState) (c : Cell) : PhysState :=
  let e := if c.highGain then c.energy else 16 * c.energy
  if e > th then
    match absToRelNumbering c.absId with
    | some (m, cell) =>
      let n := s.cellOccup m cell
      let emean := if n = 0 then e else (e + s.cellE m cell * (n : ℚ)) / ((n : ℚ) + 1)
      { cellOccup := upd2 s.cellOccup m cell (n + 1)
        cellE := upd2 s.cellE m cell emean
        timeE := fun m1 => if m1 = m then (e, c.time) :: s.timeE m1 else s.timeE m1
        cellSp := fun m1 => if m1 = m then e :: s.cellSp m1 else s.cellSp m1 }
    | none => s
  else
    s

/-- `RawQcTask::FillPhysicsHistograms`: iterate the trigger-record ranges of
the cell batch, applying the physics update rule to each record in order. -/
def fillPhysicsHistograms (th : ℚ) (cells : List Cell) (cellsTR : List TriggerRecord)
    (s : PhysState) : PhysState :=
  cellsTR.foldl (fun st tr => (subspan cells tr).foldl (physStep th) st) s

/-! ### Pedestal mode (`FillPedestalHistograms`, `startOfCycle`, `endOfCycle`) -/

/-- Pedestal-mode accumulator bank and finalize flag.  The six 2D grid
families are `kHGmeanM1`/`kHGrmsM1`/`kHGoccupM1` and their low-gain
counterparts; the 1D summary histograms (`kHGmeanSummaryM1` etc.), whose bin
contents the task never reads back, are kept as the list of values filled
into them after the last reset; the occupancy display range is the
(min, max) pair set by `SetMinimum`/`SetMaximum` in `endOfCycle`. -/
structure PedState where
  finalized : Bool
  hgMean : Fin 4 → CellIdx → ℚ
  hgRms : Fin 4 → CellIdx → ℚ
  hgOcc : Fin 4 → CellIdx → ℕ
  lgMean : Fin 4 → CellIdx → ℚ
  lgRms : Fin 4 → CellIdx → ℚ
  lgOcc : Fin 4 → CellIdx → ℕ
  hgMeanSum : Fin 4 → List ℚ
  hgRmsSum : Fin 4 → List ℚ
  lgMeanSum : Fin 4 → List ℚ
  lgRmsSum : Fin 4 → List ℚ
  hgOccRange : Fin 4 → ℚ × ℚ
  lgOccRange : Fin 4 → ℚ × ℚ

/-- The all-zero pedestal state (freshly created / reset histograms). -/
def pedState0 : PedState :=
  { finalized := false
    hgMean := fun _ _ => 0, hgRms := fun _ _ => 0, hgOcc := fun _ _ => 0
    lgMean := fun _ _ => 0, lgRms := fun _ _ => 0, lgOcc := fun _ _ => 0
    hgMeanSum := fun _ => [], hgRmsSum := fun _ => []
    lgMeanSum := fun _ => [], lgRmsSum := fun _ => []
    hgOccRange := fun _ => (0, 0), lgOccRange := fun _ => (0, 0) }

/-- Processing of a single record in the accumulation loop of
`FillPedestalHistograms` (lines 457-471): decode the address, then fill,
selected by the gain flag, the mean grid with the energy, the RMS-proxy grid
with `1.e+7 * time`, and the occupancy grid with 1.
The source ignores the Boolean result of `absToRelNumbering`; the `none`
branch here is a modelling choice (no-op) that no theorem below exercises. -/
def pedStep (s : PedState) (c : Cell) : PedState :=
  match absToRelNumbering c.absId with
  | some (m, cell) =>
    if c.highGain then
      { s with
        hgMean := upd2 s.hgMean m cell (s.hgMean m cell + c.energy)
        hgRms := upd2 s.hgRms m cell (s.hgRms m cell + 10 ^ 7 * c.time)
        hgOcc := upd2 s.hgOcc m cell (s.hgOcc m cell + 1) }
    else
      { s with
        lgMean := upd2 s.lgMean m cell (s.lgMean m cell + c.energy)
        lgRms := upd2 s.lgRms m cell (s.lgRms m cell + 10 ^ 7 * c.time)
        lgOcc := upd2 s.lgOcc m cell (s.lgOcc m cell + 1) }
  | none => s

/-- The raw accumulation part of `FillPedestalHistograms`: the double loop
over trigger records and their cell ranges. -/
def pedAccumulate (cells : List Cell) (cellsTR : List TriggerRecord)
    (s : PedState) : PedState :=
  cellsTR.foldl (fun st tr => (subspan cells tr).foldl pedStep st) s

/-- The restore-to-raw prologue of `FillPedestalHistograms` (lines 444-452):
if the grids were left finalized, multiply every mean/RMS grid cell-wise by
its occupancy grid and clear the flag. -/
def pedRestore (s : PedState) : PedState :=
  if s.finalized then
    { s with
      finalized := false
      hgMean := fun m => unfinalizeGrid (s.hgMean m) (s.hgOcc m)
      hgRms := fun m => unfinalizeGrid (s.hgRms m) (s.hgOcc m)
      lgMean := fun m => unfinalizeGrid (s.lgMean m) (s.lgOcc m)
      lgRms := fun m => unfinalizeGrid (s.lgRms m) (s.lgOcc m) }
  else
    s

/-- `RawQcTask::FillPedestalHistograms`: un-finalize if needed, then run the
accumulation loop. -/
def fillPedestalHistograms (cells : List Cell) (cellsTR : List TriggerRecord)
    (s : PedState) : PedState :=
  pedAccumulate cells cellsTR (pedRestore s)

/-- The summary-histogram refill of `endOfCycle`: reset, then scan the
materialized grid in bin order and fill every positive entry. -/
def summaryFills (g : CellIdx → ℚ) : List ℚ :=
  (List.finRange 64).foldr
    (fun iz acc =>
      ((List.finRange 56).filterMap
        (fun ix => if g (iz, ix) > 0 then some (g (iz, ix)) else none)) ++ acc)
    []

/-- The occupancy display-range computation of `endOfCycle`: running min/max
over the positive occupancy entries, started at `(1.e+9, 0.)`. -/
def occMinMax (o : CellIdx → ℕ) : ℚ × ℚ :=
  (List.finRange 64).foldl
    (fun p iz =>
      (List.finRange 56).foldl
        (fun q ix =>
          let a : ℚ := (o (iz, ix) : ℚ)
          if a > 0 then
            (if a < q.1 then a else q.1, if a > q.2 then a else q.2)
          else q)
        p)
    (10 ^ 9, 0)

/-- The pedestal-mode part of `RawQcTask::endOfCycle` (lines 286-351): if the
means were already calculated, return immediately; otherwise divide every
mean/RMS grid cell-wise by its occupancy grid, rebuild the 1D summary
distributions from the materialized grids, record the occupancy display
ranges, and set the flag. -/
def pedEndOfCycle (s : PedState) : PedState :=
  if s.finalized then
    s
  else
    { finalized := true
      hgMean := fun m => finalizeGrid (s.hgMean m) (s.hgOcc m)
      hgRms := fun m => finalizeGrid (s.hgRms m) (s.hgOcc m)
      hgOcc := s.hgOcc
      lgMean := fun m => finalizeGrid (s.lgMean m) (s.lgOcc m)
      lgRms := fun m => finalizeGrid (s.lgRms m) (s.lgOcc m)
      lgOcc := s.lgOcc
      hgMeanSum := fun m => summaryFills (finalizeGrid (s.hgMean m) (s.hgOcc m))
      hgRmsSum := fun m => summaryFills (finalizeGrid (s.hgRms m) (s.hgOcc m))
      lgMeanSum := fun m => summaryFills (finalizeGrid (s.lgMean m) (s.lgOcc m))
      lgRmsSum := fun m => summaryFills (finalizeGrid (s.lgRms m) (s.lgOcc m))
      hgOccRange := fun m => occMinMax (s.hgOcc m)
      lgOccRange := fun m => occMinMax (s.lgOcc m) }

/-- The pedestal-mode part of `RawQcTask::endOfActivity`, which just invokes
`endOfCycle` once more. -/
def pedEndOfActivity (s : PedState) : PedState :=
  pedEndOfCycle s

/-- Projection of a pedestal state onto its six accumulation grid families
(the data touched by the accumulation loop). -/
def pedGrids (s : PedState) :
    (Fin 4 → CellIdx → ℚ) × (Fin 4 → CellIdx → ℚ) × (Fin 4 → CellIdx → ℕ) ×
    (Fin 4 → CellIdx → ℚ) × (Fin 4 → CellIdx → ℚ) × (Fin 4 → CellIdx → ℕ) :=
  (s.hgMean, s.hgRms, s.hgOcc, s.lgMean, s.lgRms, s.lgOcc)

/-- A pedestal state is raw-consistent when every cell of zero occupancy
holds zero in the paired mean and RMS grids — true of every state actually
produced by accumulation from reset. -/
def pedRawConsistent (s : PedState) : Prop :=
  ∀ (m : Fin 4) (c : CellIdx),
    (s.hgOcc m c = 0 → s.hgMean m c = 0 ∧ s.hgRms m c = 0) ∧
    (s.lgOcc m c = 0 → s.lgMean m c = 0 ∧ s.lgRms m c = 0)

/-! ### Hardware-error tally (`monitorData`, lines 207-214) -/

/-- Global bin number of the 32 x 15 error histograms
(`TH2F("NumberOfErrors", ..., 32, 0, 32, 15, 0, 15.)`): integer coordinates
land in bin `k+1` of their axis (overflow bins 33 / 16 beyond range), and the
global bin is `binx + (nbinsx + 2) * biny`. -/
def errGlobalBin (fec ddl : ℕ) : ℕ :=
  (if fec < 32 then fec + 1 else 33) + 34 * (if ddl < 15 then ddl + 1 else 16)

/-- The two error histograms, by global bin: per-(FEE card, DDL) error count
(`kErrorNumber`) and OR-ed error-type bitmask (`kErrorType`). -/
structure ErrState where
  errorNumber : ℕ → ℕ
  errorType : ℕ → ℕ

/-- The all-zero error tally. -/
def errState0 : ErrState :=
  { errorNumber := fun _ => 0, errorType := fun _ => 0 }

/-- Processing of one `RawReaderError` in `monitorData`:
`ibin = kErrorNumber->Fill(FEC, DDL)` (count + 1, returning the global bin),
then `kErrorType` content at that bin OR-ed with `1 << errorCode`. -/
def recordError (s : ErrState) (fec ddl code : ℕ) : ErrState :=
  let ibin := errGlobalBin fec ddl
  { errorNumber := fun b => if b = ibin then s.errorNumber b + 1 else s.errorNumber b
    errorType := fun b => if b = ibin then s.errorType b ||| (1 <<< code) else s.errorType b }

/-- The hardware-error loop of `monitorData`: fold `recordError` over the
cycle's list of (FEC, DDL, errorCode) records. -/
def processErrors (s : ErrState) (l : List (ℕ × ℕ × ℕ)) : ErrState :=
  l.foldl (fun st e => recordError st e.1 e.2.1 e.2.2) s

/-! ### Chi2 fit-quality accumulation (`monitorData`, lines 241-257) -/

/-- Chi2 family: weighted chi2 grid (`kChi2M1`, filled with weight
`0.2 * metric`) and its normalization counter grid (`kChi2NormM1`). -/
structure Chi2State where
  chi2 : Fin 4 → CellIdx → ℚ
  chi2norm : Fin 4 → CellIdx → ℕ
deriving DecidableEq

/-- Processing of one (encoded address, quality metric) pair of the
fit-quality input: clear the HG/LG gain bit 14 of the 16-bit address
(`address &= ~(1 << 14)`, i.e. mask with 0xBFFF), decode, and fill the chi2
grid with `0.2 * metric` and the normalization grid with 1 at that cell.
The source ignores the Boolean result of `absToRelNumbering`; the `none`
branch here is a modelling choice (no-op) that no theorem below exercises. -/
def chi2Step (s : Chi2State) (address : ℕ) (metric : ℤ) : Chi2State :=
  let masked := address &&& 49151
  match absToRelNumbering masked with
  | some (m, cell) =>
    { chi2 := upd2 s.chi2 m cell (s.chi2 m cell + (metric : ℚ) / 5)
      chi2norm := upd2 s.chi2norm m cell (s.chi2norm m cell + 1) }
  | none => s

/-! ## Theorems -/

/-- Shared helper: the un-finalize transition inverts the finalize transition
on every grid pair in which zero-occupancy cells hold value zero. -/
theorem unfinalize_finalize_eq (v : CellIdx → ℚ) (o : CellIdx → ℕ)
    (h : ∀ c, o c = 0 → v c = 0) :
    unfinalizeGrid (finalizeGrid v o) o = v := by
  funext c
  by_cases h0 : o c = 0
  · simp [unfinalizeGrid, finalizeGrid, h0, h c h0]
  · have hne : ((o c : ℚ)) ≠ 0 := Nat.cast_ne_zero.mpr h0
    simp [unfinalizeGrid, finalizeGrid, h0, div_mul_cancel₀ _ hne]

/-- C1 (counterexample): with occupancy 0 and value 5 in every cell, the
finalize/un-finalize round trip yields the zero grid, not the original —
the claim fails for grids holding a nonzero value at a zero-occupancy
cell. -/
theorem finalize_roundtrip_cex :
    unfinalizeGrid (finalizeGrid (fun _ => (5 : ℚ)) (fun _ => 0)) (fun _ => 0) ≠
      (fun _ => (5 : ℚ)) := by
  intro h
  have h0 := congrFun h ((0, 0) : CellIdx)
  simp [unfinalizeGrid, finalizeGrid] at h0

/-- C1 (amended): the finalize transition (cell-wise value / occupancy, zero
on zero-occupancy cells) followed by the un-finalize transition (cell-wise
value * occupancy), with occupancy unchanged in between, restores the
value-grid exactly, provided every zero-occupancy cell holds value zero —
as in every grid produced by accumulation. -/
theorem finalize_roundtrip_restores (v : CellIdx → ℚ) (o : CellIdx → ℕ)
    (h : ∀ c, o c = 0 → v c = 0) :
    unfinalizeGrid (finalizeGrid v o) o = v :=
  unfinalize_finalize_eq v o h

/-- C1 witness: round trip at the constant grid value 6, occupancy 3. -/
theorem finalize_roundtrip_restores_witness :
    unfinalizeGrid (finalizeGrid (fun _ => (6 : ℚ)) (fun _ => 3)) (fun _ => 3) =
      (fun _ => (6 : ℚ)) :=
  finalize_roundtrip_restores (fun _ => 6) (fun _ => 3)
    (fun _ h => absurd h (by norm_num))

/-- The pedestal accumulation step reads and writes only the six grid
families: states agreeing on their grids keep agreeing after a step. -/
theorem pedStep_grids_congr {s1 s2 : PedState} (h : pedGrids s1 = pedGrids s2)
    (c : Cell) : pedGrids (pedStep s1 c) = pedGrids (pedStep s2 c) := by
  simp only [pedGrids, Prod.mk.injEq] at h
  obtain ⟨h1, h2, h3, h4, h5, h6⟩ := h
  cases hdec : absToRelNumbering c.absId with
  | none => simp [pedStep, hdec, pedGrids, h1, h2, h3, h4, h5, h6]
  | some mc =>
    obtain ⟨m, cell⟩ := mc
    cases hg : c.highGain <;>
      simp [pedStep, hdec, hg, pedGrids, h1, h2, h3, h4, h5, h6]

/-- Fold version of `pedStep_grids_congr` over one cell range. -/
theorem pedFold_grids_congr :
    ∀ (l : List Cell) {s1 s2 : PedState}, pedGrids s1 = pedGrids s2 →
      pedGrids (l.foldl pedStep s1) = pedGrids (l.foldl pedStep s2)
  | [], _, _, h => h
  | c :: l, s1, s2, h => by
    simpa using pedFold_grids_congr l (pedStep_grids_congr h c)

/-- The whole pedestal accumulation loop preserves agreement on the grids. -/
theorem pedAccumulate_grids_congr (cells : List Cell) :
    ∀ (trs : List TriggerRecord) {s1 s2 : PedState}, pedGrids s1 = pedGrids s2 →
      pedGrids (pedAccumulate cells trs s1) = pedGrids (pedAccumulate cells trs s2)
  | [], _, _, h => h
  | tr :: trs, s1, s2, h => by
    simpa [pedAccumulate] using
      pedAccumulate_grids_congr cells trs
        (pedFold_grids_congr (subspan cells tr) h)

/-- Restoring right after a pedestal finalization recovers the grids of the
raw state, for raw-consistent states. -/
theorem pedRestore_endOfCycle_grids (s : PedState) (hf : s.finalized = false)
    (hc : pedRawConsistent s) :
    pedGrids (pedRestore (pedEndOfCycle s)) = pedGrids s := by
  simp only [pedEndOfCycle, hf, Bool.false_eq_true, if_false, pedRestore, if_true,
    pedGrids, Prod.mk.injEq]
  refine ⟨?_, ?_, trivial, ?_, ?_, trivial⟩ <;> funext m
  · exact unfinalize_finalize_eq _ _ (fun c h => ((hc m c).1 h).1)
  · exact unfinalize_finalize_eq _ _ (fun c h => ((hc m c).1 h).2)
  · exact unfinalize_finalize_eq _ _ (fun c h => ((hc m c).2 h).1)
  · exact unfinalize_finalize_eq _ _ (fun c h => ((hc m c).2 h).2)

/-- C2: pedestal cycle accumulation is only applied to raw grids: the fill
operation is the raw accumulation loop run on the restored state, the
restored state always has the finalized flag cleared, and accumulating into
a freshly finalized bank yields the same grids as accumulating into the raw
bank it came from. -/
theorem pedestal_accumulates_only_raw (cells : List Cell)
    (trs : List TriggerRecord) (s : PedState) :
    fillPedestalHistograms cells trs s = pedAccumulate cells trs (pedRestore s) ∧
    (pedRestore s).finalized = false ∧
    (s.finalized = false → pedRawConsistent s →
      pedGrids (fillPedestalHistograms cells trs (pedEndOfCycle s)) =
        pedGrids (fillPedestalHistograms cells trs s)) := by
  refine ⟨rfl, ?_, ?_⟩
  · cases hf : s.finalized <;> simp [pedRestore, hf]
  · intro hf hc
    have hrest : pedGrids (pedRestore (pedEndOfCycle s)) = pedGrids (pedRestore s) := by
      rw [pedRestore_endOfCycle_grids s hf hc]
      simp [pedRestore, hf]
    exact pedAccumulate_grids_congr cells trs hrest

/-- C2 witness: one high-gain record accumulated right after a finalization
of the fresh bank gives the same grids as accumulated into the fresh bank. -/
theorem pedestal_accumulates_only_raw_witness :
    pedGrids (fillPedestalHistograms [⟨1, 5, 2, true⟩] [⟨0, 1⟩] (pedEndOfCycle pedState0)) =
      pedGrids (fillPedestalHistograms [⟨1, 5, 2, true⟩] [⟨0, 1⟩] pedState0) :=
  (pedestal_accumulates_only_raw [⟨1, 5, 2, true⟩] [⟨0, 1⟩] pedState0).2.2 rfl
    (by intro m c; exact ⟨fun _ => ⟨rfl, rfl⟩, fun _ => ⟨rfl, rfl⟩⟩)

/-- Helper: a pedestal bank whose flag is set is a fixed point of the
pedestal end-of-cycle transition. -/
theorem pedEndOfCycle_fixed (s : PedState) (h : s.finalized = true) :
    pedEndOfCycle s = s := by
  simp [pedEndOfCycle, h]

/-- C10: pedestal end-of-cycle finalization is idempotent — with the flag
already set it returns the state unchanged (every grid, summary distribution
and display range untouched), so the second invocation from `endOfActivity`
never divides a second time. -/
theorem pedEndOfCycle_idempotent (s : PedState) :
    pedEndOfCycle (pedEndOfCycle s) = pedEndOfCycle s ∧
    (s.finalized = true → pedEndOfCycle s = s ∧ pedEndOfActivity s = s) := by
  have hfin : (pedEndOfCycle s).finalized = true := by
    cases hf : s.finalized <;> simp [pedEndOfCycle, hf]
  exact ⟨pedEndOfCycle_fixed _ hfin,
    fun h => ⟨pedEndOfCycle_fixed s h, pedEndOfCycle_fixed s h⟩⟩

/-- C10 witness: end-of-cycle on an already finalized fresh bank is the
identity. -/
theorem pedEndOfCycle_idempotent_witness :
    pedEndOfCycle { pedState0 with finalized := true } =
      { pedState0 with finalized := true } :=
  ((pedEndOfCycle_idempotent { pedState0 with finalized := true }).2 rfl).1

/-- Helper: effect of one accepted high-gain physics record on its own cell:
occupancy is incremented after the mean update, which uses the pre-increment
occupancy. -/
theorem physStep_at_cell (th : ℚ) (s : PhysState) (a : ℕ) (e t : ℚ)
    (m : Fin 4) (cell : CellIdx)
    (hdec : absToRelNumbering a = some (m, cell)) (he : e > th) :
    (physStep th s ⟨a, e, t, true⟩).cellOccup m cell = s.cellOccup m cell + 1 ∧
    (physStep th s ⟨a, e, t, true⟩).cellE m cell =
      (if s.cellOccup m cell = 0 then e
       else (e + s.cellE m cell * (s.cellOccup m cell : ℚ)) /
         ((s.cellOccup m cell : ℚ) + 1)) := by
  simp [physStep, hdec, he, upd2]

/-- Helper: feeding accepted records one at a time into a cell that already
holds the running mean `v / n` of a virtual sum `v` over `n` samples yields
the running mean of the extended sum. -/
theorem physFold_mean (th : ℚ) (a : ℕ) (t : ℚ) (m : Fin 4) (cell : CellIdx)
    (hdec : absToRelNumbering a = some (m, cell)) :
    ∀ (es : List ℚ) (v : ℚ) (n : ℕ) (s : PhysState),
      (∀ e ∈ es, e > th) → n ≠ 0 →
      s.cellOccup m cell = n → s.cellE m cell = v / (n : ℚ) →
      ((es.map (fun e => Cell.mk a e t true)).foldl (physStep th) s).cellOccup m cell
          = n + es.length ∧
      ((es.map (fun e => Cell.mk a e t true)).foldl (physStep th) s).cellE m cell
          = (v + es.sum) / ((n : ℚ) + (es.length : ℚ)) := by
  intro es
  induction es with
  | nil =>
    intro v n s _ _ ho hE
    simpa [ho] using hE
  | cons e es ih =>
    intro v n s hth hn ho hE
    have hne : ((n : ℚ)) ≠ 0 := Nat.cast_ne_zero.mpr hn
    obtain ⟨h1occ, h1E⟩ :=
      physStep_at_cell th s a e t m cell hdec (hth e (by simp))
    rw [ho] at h1occ h1E
    rw [hE] at h1E
    have h1E2 : (physStep th s ⟨a, e, t, true⟩).cellE m cell =
        (v + e) / ((n : ℚ) + 1) := by
      rw [h1E, if_neg hn, div_mul_cancel₀ _ hne]
      ring_nf
    have := ih (v + e) (n + 1) (physStep th s ⟨a, e, t, true⟩)
      (fun x hx => hth x (by simp [hx])) (Nat.succ_ne_zero n) h1occ
      (by rw [h1E2]; push_cast; ring_nf)
    obtain ⟨hocc2, hE2⟩ := this
    constructor
    · simpa [Nat.add_assoc, Nat.add_comm 1 es.length] using hocc2
    · rw [List.map_cons, List.foldl_cons, hE2]
      simp only [List.sum_cons, List.length_cons]
      push_cast
      ring_nf

/-- C3: from a zeroed bank, a sequence of accepted physics records for one
cell leaves the cell's mean-energy value at the arithmetic mean of the
energies and its occupancy at the sample count; each update uses the
pre-increment occupancy in the formula (e + mean * n) / (n + 1). -/
theorem physics_incremental_mean (th : ℚ) (a : ℕ) (t : ℚ) (es : List ℚ)
    (m : Fin 4) (cell : CellIdx)
    (hdec : absToRelNumbering a = some (m, cell))
    (hth : ∀ e ∈ es, e > th) :
    (fillPhysicsHistograms th (es.map (fun e => Cell.mk a e t true))
        [⟨0, es.length⟩] physState0).cellE m cell = es.sum / (es.length : ℚ) ∧
    (fillPhysicsHistograms th (es.map (fun e => Cell.mk a e t true))
        [⟨0, es.length⟩] physState0).cellOccup m cell = es.length ∧
    (∀ (s : PhysState) (e : ℚ), e > th → s.cellOccup m cell ≠ 0 →
      (physStep th s ⟨a, e, t, true⟩).cellE m cell =
        (e + s.cellE m cell * (s.cellOccup m cell : ℚ)) /
          ((s.cellOccup m cell : ℚ) + 1)) := by
  have hspan : subspan (es.map (fun e => Cell.mk a e t true)) ⟨0, es.length⟩
      = es.map (fun e => Cell.mk a e t true) := by
    simp [subspan, List.take_of_length_le]
  have hfill : fillPhysicsHistograms th (es.map (fun e => Cell.mk a e t true))
      [⟨0, es.length⟩] physState0
      = (es.map (fun e => Cell.mk a e t true)).foldl (physStep th) physState0 := by
    simp [fillPhysicsHistograms, hspan]
  refine ⟨?_, ?_, ?_⟩
  · rw [hfill]
    cases es with
    | nil => simp [physState0]
    | cons e rest =>
      obtain ⟨h1occ, h1E⟩ :=
        physStep_at_cell th physState0 a e t m cell hdec (hth e (by simp))
      simp only [physState0] at h1occ h1E
      obtain ⟨_, hE⟩ := physFold_mean th a t m cell hdec rest e 1
        (physStep th physState0 ⟨a, e, t, true⟩)
        (fun x hx => hth x (by simp [hx])) one_ne_zero
        (by simpa using h1occ) (by simpa using h1E)
      rw [List.map_cons, List.foldl_cons, hE]
      simp only [List.sum_cons, List.length_cons]
      push_cast
      ring_nf
  · rw [hfill]
    cases es with
    | nil => simp [physState0]
    | cons e rest =>
      obtain ⟨h1occ, _⟩ :=
        physStep_at_cell th physState0 a e t m cell hdec (hth e (by simp))
      simp only [physState0] at h1occ
      obtain ⟨hocc, _⟩ := physFold_mean th a t m cell hdec rest e 1
        (physStep th physState0 ⟨a, e, t, true⟩)
        (fun x hx => hth x (by simp [hx])) one_ne_zero
        (by simpa using h1occ)
        (by
          obtain ⟨_, h1E⟩ :=
            physStep_at_cell th physState0 a e t m cell hdec (hth e (by simp))
          simp only [physState0] at h1E
          simpa using h1E)
      rw [List.map_cons, List.foldl_cons, hocc]
      simp [Nat.add_comm]
  · intro s e he hn
    obtain ⟨_, hE⟩ := physStep_at_cell th s a e t m cell hdec he
    rw [hE, if_neg hn]

/-- C3 witness: energies 1 and 3 from a zeroed bank give mean 2 and
occupancy 2 at the decoded cell of address 1. -/
theorem physics_incremental_mean_witness :
    (fillPhysicsHistograms 0 ([(1 : ℚ), 3].map (fun e => Cell.mk 1 e 0 true))
        [⟨0, [(1 : ℚ), 3].length⟩] physState0).cellE 0 (0, 0)
      = [(1 : ℚ), 3].sum / (([(1 : ℚ), 3].length : ℕ) : ℚ) ∧
    (fillPhysicsHistograms 0 ([(1 : ℚ), 3].map (fun e => Cell.mk 1 e 0 true))
        [⟨0, [(1 : ℚ), 3].length⟩] physState0).cellOccup 0 (0, 0)
      = [(1 : ℚ), 3].length := by
  have h := physics_incremental_mean 0 1 0 [(1 : ℚ), 3] 0 (0, 0)
    (by decide) (by norm_num)
  exact ⟨h.1, h.2.1⟩

/-- C4: a physics-mode record whose gain-rescaled energy lies below the
occupancy threshold changes nothing: occupancy, mean energy, the
time-vs-energy grid and the energy spectrum are untouched. -/
theorem physics_below_threshold_noop (th : ℚ) (s : PhysState) (c : Cell)
    (h : (if c.highGain then c.energy else 16 * c.energy) < th) :
    physStep th s c = s ∧ fillPhysicsHistograms th [c] [⟨0, 1⟩] s = s := by
  have hng : ¬ ((if c.highGain then c.energy else 16 * c.energy) > th) :=
    fun hgt => absurd h (not_lt_of_gt hgt)
  constructor
  · simp [physStep, hng]
  · simp [fillPhysicsHistograms, subspan, physStep, hng]

/-- C4 witness: with threshold 10, a high-gain record of energy 5 is a
no-op on the zeroed bank. -/
theorem physics_below_threshold_noop_witness :
    physStep 10 physState0 ⟨1, 5, 0, true⟩ = physState0 ∧
    fillPhysicsHistograms 10 [⟨1, 5, 0, true⟩] [⟨0, 1⟩] physState0 = physState0 :=
  physics_below_threshold_noop 10 physState0 ⟨1, 5, 0, true⟩ (by norm_num)

/-- C5: a low-gain physics record of energy e is processed identically to a
high-gain record of energy 16 * e at the same address and time — the
rescale happens before the threshold test and every accumulation. -/
theorem physics_lowgain_rescale (th : ℚ) (s : PhysState) (a : ℕ) (e t : ℚ) :
    physStep th s ⟨a, e, t, false⟩ = physStep th s ⟨a, 16 * e, t, true⟩ ∧
    fillPhysicsHistograms th [⟨a, e, t, false⟩] [⟨0, 1⟩] s =
      fillPhysicsHistograms th [⟨a, 16 * e, t, true⟩] [⟨0, 1⟩] s := by
  constructor
  · simp [physStep]
  · simp [fillPhysicsHistograms, subspan, physStep]

/-- C7: each recorded hardware error increments the (FEE card, DDL) count by
one and ORs bit errorCode into that cell's bitmask; in particular records
(3,5,2) then (3,5,4) on an empty tally leave count 2 and bitmask
(1<<2)|(1<<4) = 20 at cell (3,5). -/
theorem errorTally_accumulation (s : ErrState) (fec ddl code : ℕ) :
    (recordError s fec ddl code).errorNumber (errGlobalBin fec ddl)
        = s.errorNumber (errGlobalBin fec ddl) + 1 ∧
    (recordError s fec ddl code).errorType (errGlobalBin fec ddl)
        = s.errorType (errGlobalBin fec ddl) ||| (1 <<< code) ∧
    (processErrors errState0 [(3, 5, 2), (3, 5, 4)]).errorNumber (errGlobalBin 3 5) = 2 ∧
    (processErrors errState0 [(3, 5, 2), (3, 5, 4)]).errorType (errGlobalBin 3 5) = 20 :=
  ⟨by simp [recordError], by simp [recordError], by decide, by decide⟩

/-- Helper: one `recordError` never decreases a count and never clears a
bitmask bit, at any bin. -/
theorem recordError_monotone (s : ErrState) (fec ddl code : ℕ) (b : ℕ) :
    s.errorNumber b ≤ (recordError s fec ddl code).errorNumber b ∧
    (∀ i : ℕ, (s.errorType b).testBit i = true →
      ((recordError s fec ddl code).errorType b).testBit i = true) := by
  constructor
  · by_cases hb : b = errGlobalBin fec ddl <;> simp [recordError, hb]
  · intro i hi
    by_cases hb : b = errGlobalBin fec ddl
    · subst hb
      simp only [recordError, eq_self_iff_true, if_true, Nat.testBit_or,
        Bool.or_eq_true]
      exact Or.inl hi
    · simpa [recordError, hb] using hi

/-- C9: the error tally is monotone across any sequence of recorded errors:
every (FEE card, DDL) count is non-decreasing and every bitmask only gains
bits. -/
theorem errorTally_monotone (s : ErrState) (l : List (ℕ × ℕ × ℕ)) (b : ℕ) :
    s.errorNumber b ≤ (processErrors s l).errorNumber b ∧
    (∀ i : ℕ, (s.errorType b).testBit i = true →
      ((processErrors s l).errorType b).testBit i = true) := by
  induction l generalizing s with
  | nil => exact ⟨le_refl _, fun _ h => h⟩
  | cons e rest ih =>
    have hstep := recordError_monotone s e.1 e.2.1 e.2.2 b
    have hrest := ih (recordError s e.1 e.2.1 e.2.2)
    have hproc : processErrors s (e :: rest)
        = processErrors (recordError s e.1 e.2.1 e.2.2) rest := by
      simp [processErrors]
    rw [hproc]
    exact ⟨le_trans hstep.1 hrest.1, fun i hi => hrest.2 i (hstep.2 i hi)⟩

/-- C9 witness: bit 2, set by a first error record, survives the processing
of a further record at the same cell. -/
theorem errorTally_monotone_witness :
    ((processErrors (processErrors errState0 [(3, 5, 2)]) [(3, 5, 4)]).errorType
      (errGlobalBin 3 5)).testBit 2 = true :=
  (errorTally_monotone (processErrors errState0 [(3, 5, 2)]) [(3, 5, 4)]
    (errGlobalBin 3 5)).2 2 (by decide)

/-- Helper: masking with 0xBFFF is idempotent. -/
theorem land_mask_idem (a : ℕ) : (a &&& 49151) &&& 49151 = a &&& 49151 := by
  apply Nat.eq_of_testBit_eq
  intro i
  simp [Nat.testBit_and, Bool.and_assoc]

/-- Helper: setting bit 14 is erased by the 0xBFFF mask. -/
theorem lor_bit14_mask (a : ℕ) : (a ||| 16384) &&& 49151 = a &&& 49151 := by
  apply Nat.eq_of_testBit_eq
  intro i
  simp only [Nat.testBit_and, Nat.testBit_or]
  by_cases h : i = 14
  · subst h
    have h49 : (49151 : ℕ).testBit 14 = false := by decide
    simp [h49]
  · have h16 : (16384 : ℕ).testBit i = false := by
      have : (16384 : ℕ) = 2 ^ 14 := by norm_num
      rw [this]
      exact Nat.testBit_two_pow_of_ne (fun hq => h hq.symm)
    simp [h16]

/-- C8: the chi2 fit-quality update clears the gain bit (bit 14) of the
encoded address before channel decoding: a pair is processed exactly as its
masked address, whether or not the gain bit was set. -/
theorem chi2_gain_bit_masked (s : Chi2State) (a : ℕ) (q : ℤ) :
    chi2Step s a q = chi2Step s (a &&& 49151) q ∧
    chi2Step s (a ||| 16384) q = chi2Step s (a &&& 49151) q := by
  constructor
  · show chi2Step s a q = chi2Step s (a &&& 49151) q
    simp only [chi2Step, land_mask_idem]
  · show chi2Step s (a ||| 16384) q = chi2Step s (a &&& 49151) q
    simp only [chi2Step, lor_bit14_mask, land_mask_idem]

end RawQc
